import Mathlib

/-!
# Verification of the PIC plasma-simulation core

Shallow embedding of the particle-in-cell simulation core
(`src/vector.rs`, `src/field.rs`, `src/mesh.rs`, `src/species.rs`) over ℚ
(exact arithmetic standing in for `f64`), together with proofs and
refutations of the specified properties.
-/

namespace PlasmaSim

/-- Embeds `Vec3` (`src/vector.rs`): a 3-component vector. -/
@[ext]
structure Vec3 where
  x : ℚ
  y : ℚ
  z : ℚ
deriving DecidableEq

instance : Zero Vec3 := ⟨⟨0, 0, 0⟩⟩

instance : Add Vec3 := ⟨fun u v => ⟨u.x + v.x, u.y + v.y, u.z + v.z⟩⟩

instance : Sub Vec3 := ⟨fun u v => ⟨u.x - v.x, u.y - v.y, u.z - v.z⟩⟩

instance : Neg Vec3 := ⟨fun u => ⟨-u.x, -u.y, -u.z⟩⟩

/-- Embeds `Vec3`'s scalar multiplication (`impl<T> Mul<T> for Vec3`). -/
instance : SMul ℚ Vec3 := ⟨fun q u => ⟨u.x * q, u.y * q, u.z * q⟩⟩

@[simp]
lemma Vec3.zero_x : (0 : Vec3).x = 0 := rfl

@[simp]
lemma Vec3.zero_y : (0 : Vec3).y = 0 := rfl

@[simp]
lemma Vec3.zero_z : (0 : Vec3).z = 0 := rfl

@[simp]
lemma Vec3.add_x (u v : Vec3) : (u + v).x = u.x + v.x := rfl

@[simp]
lemma Vec3.add_y (u v : Vec3) : (u + v).y = u.y + v.y := rfl

@[simp]
lemma Vec3.add_z (u v : Vec3) : (u + v).z = u.z + v.z := rfl

@[simp]
lemma Vec3.sub_x (u v : Vec3) : (u - v).x = u.x - v.x := rfl

@[simp]
lemma Vec3.sub_y (u v : Vec3) : (u - v).y = u.y - v.y := rfl

@[simp]
lemma Vec3.sub_z (u v : Vec3) : (u - v).z = u.z - v.z := rfl

@[simp]
lemma Vec3.smul_x (q : ℚ) (u : Vec3) : (q • u).x = u.x * q := rfl

@[simp]
lemma Vec3.smul_y (q : ℚ) (u : Vec3) : (q • u).y = u.y * q := rfl

@[simp]
lemma Vec3.smul_z (q : ℚ) (u : Vec3) : (q • u).z = u.z * q := rfl

/-- Embeds `Dimensions` (`src/mesh.rs`): node counts along the three axes. -/
structure Dimensions where
  x : ℕ
  y : ℕ
  z : ℕ
deriving DecidableEq

/-- A 3-D array of values, indexed by natural coordinates. -/
abbrev Grid (V : Type) := ℕ → ℕ → ℕ → V

/-- Embeds the generic `Field<T>` (`src/field.rs`): array data plus its shape. -/
structure Field (V : Type) where
  data : Grid V
  shape : Dimensions

/-- The out-of-domain guard of `Field::scatter` (`src/field.rs` lines 39-47):
the logical coordinate is below `0` or at or beyond `shape - 1` on some axis. -/
def scatterOutOfRange (shape : Dimensions) (lc : Vec3) : Prop :=
  lc.x < 0 ∨ ((shape.x - 1 : ℕ) : ℚ) ≤ lc.x
    ∨ lc.y < 0 ∨ ((shape.y - 1 : ℕ) : ℚ) ≤ lc.y
    ∨ lc.z < 0 ∨ ((shape.z - 1 : ℕ) : ℚ) ≤ lc.z

instance (shape : Dimensions) (lc : Vec3) : Decidable (scatterOutOfRange shape lc) := by
  unfold scatterOutOfRange
  infer_instance

/-- Embeds `Field::scatter` (`src/field.rs` lines 36-65): trilinear deposit of
`value` onto the 8 nodes surrounding the fractional coordinate `lc`, a no-op
when `lc` is out of range. `lc.x as usize` on an in-range (hence nonnegative)
coordinate is the floor. -/
def Field.scatter [Zero V] [Add V] [SMul ℚ V] (f : Field V) (lc : Vec3) (value : V) :
    Field V :=
  if scatterOutOfRange f.shape lc then f
  else
    let i : ℕ := (⌊lc.x⌋).toNat
    let j : ℕ := (⌊lc.y⌋).toNat
    let k : ℕ := (⌊lc.z⌋).toNat
    let di : ℚ := lc.x - (i : ℚ)
    let dj : ℚ := lc.y - (j : ℚ)
    let dk : ℚ := lc.z - (k : ℚ)
    { f with
      data := fun a b c =>
        f.data a b c
          + (if a = i then if b = j then if c = k then
              ((1 - di) * (1 - dj) * (1 - dk)) • value else 0 else 0 else 0)
          + (if a = i + 1 then if b = j then if c = k then
              (di * (1 - dj) * (1 - dk)) • value else 0 else 0 else 0)
          + (if a = i + 1 then if b = j + 1 then if c = k then
              (di * dj * (1 - dk)) • value else 0 else 0 else 0)
          + (if a = i then if b = j + 1 then if c = k then
              ((1 - di) * dj * (1 - dk)) • value else 0 else 0 else 0)
          + (if a = i then if b = j then if c = k + 1 then
              ((1 - di) * (1 - dj) * dk) • value else 0 else 0 else 0)
          + (if a = i + 1 then if b = j then if c = k + 1 then
              (di * (1 - dj) * dk) • value else 0 else 0 else 0)
          + (if a = i + 1 then if b = j + 1 then if c = k + 1 then
              (di * dj * dk) • value else 0 else 0 else 0)
          + (if a = i then if b = j + 1 then if c = k + 1 then
              ((1 - di) * dj * dk) • value else 0 else 0 else 0) }

/-- The eight trilinear weights computed by `Field::scatter` for a logical
coordinate, in the order the source applies them (`src/field.rs` lines 57-64). -/
def scatterWeightList (lc : Vec3) : List ℚ :=
  let i : ℕ := (⌊lc.x⌋).toNat
  let j : ℕ := (⌊lc.y⌋).toNat
  let k : ℕ := (⌊lc.z⌋).toNat
  let di : ℚ := lc.x - (i : ℚ)
  let dj : ℚ := lc.y - (j : ℚ)
  let dk : ℚ := lc.z - (k : ℚ)
  [(1 - di) * (1 - dj) * (1 - dk),
   di * (1 - dj) * (1 - dk),
   di * dj * (1 - dk),
   (1 - di) * dj * (1 - dk),
   (1 - di) * (1 - dj) * dk,
   di * (1 - dj) * dk,
   di * dj * dk,
   (1 - di) * dj * dk]

/-- Modelled from the spec: `Field::gather` is invoked by `Species::advance`,
`Species::add_particle` and `Species::compute_number_density`
(`src/species.rs`) but its definition is absent from the sources; the spec
(§4.1) defines it as the dual trilinear interpolation using the same 8-node
weighting scheme as `Field::scatter`. -/
def Field.gather [Zero V] [Add V] [SMul ℚ V] (f : Field V) (lc : Vec3) : V :=
  let i : ℕ := (⌊lc.x⌋).toNat
  let j : ℕ := (⌊lc.y⌋).toNat
  let k : ℕ := (⌊lc.z⌋).toNat
  let di : ℚ := lc.x - (i : ℚ)
  let dj : ℚ := lc.y - (j : ℚ)
  let dk : ℚ := lc.z - (k : ℚ)
  ((1 - di) * (1 - dj) * (1 - dk)) • f.data i j k
    + (di * (1 - dj) * (1 - dk)) • f.data (i + 1) j k
    + (di * dj * (1 - dk)) • f.data (i + 1) (j + 1) k
    + ((1 - di) * dj * (1 - dk)) • f.data i (j + 1) k
    + ((1 - di) * (1 - dj) * dk) • f.data i j (k + 1)
    + (di * (1 - dj) * dk) • f.data (i + 1) j (k + 1)
    + (di * dj * dk) • f.data (i + 1) (j + 1) (k + 1)
    + ((1 - di) * dj * dk) • f.data i (j + 1) (k + 1)

/-- The vacuum permittivity constant (`src/constants.rs`): `8.85418782e-12`. -/
def PERMITTIVITY : ℚ := 885418782 / 10 ^ 20

/-- The boundary half-weight factor shared by `BoxMesh::compute_node_volumes`
(`src/mesh.rs` lines 157-181) and `Species::load_particles_box_qs`
(`src/species.rs` lines 193-205): a quantity is multiplied by `0.5` once on
each axis where the index lies on that axis's boundary. -/
def halfFactor (d i : ℕ) : ℚ :=
  if i = 0 ∨ i = d - 1 then 0.5 else 1

/-- Embeds the loop body of `BoxMesh::compute_node_volumes` (`src/mesh.rs`
lines 161-178): the node volume is the product of the three cell spacings,
multiplied by `0.5` once per axis on which the node is a boundary node. -/
def nodeVolume (cs : ℚ × ℚ × ℚ) (d : Dimensions) (i j k : ℕ) : ℚ :=
  let v := cs.1 * cs.2.1 * cs.2.2
  let v := if i = 0 ∨ i = d.x - 1 then v * 0.5 else v
  let v := if j = 0 ∨ j = d.y - 1 then v * 0.5 else v
  let v := if k = 0 ∨ k = d.z - 1 then v * 0.5 else v
  v

/-- Embeds `BoxMesh` (`src/mesh.rs`). -/
structure BoxMesh where
  origin : Vec3
  maxBound : Vec3
  dimensions : Dimensions
  cellSpacings : ℚ × ℚ × ℚ
  centroid : Vec3
  nodeVolumes : Field ℚ
  timestep : ℚ
  potential : Field ℚ
  chargeDensity : Field ℚ
  electricField : Field Vec3

/-- Embeds `BoxMesh::new` (`src/mesh.rs` lines 57-82): cell spacings are
`(max_bound - origin) / dimensions` per axis; node volumes are computed once;
the potential, charge-density and electric-field grids start zeroed. -/
def BoxMesh.new (origin maxBound : Vec3) (dimensions : Dimensions) (timestep : ℚ) :
    BoxMesh :=
  { origin := origin
    maxBound := maxBound
    dimensions := dimensions
    cellSpacings :=
      ((maxBound.x - origin.x) / (dimensions.x : ℚ),
       (maxBound.y - origin.y) / (dimensions.y : ℚ),
       (maxBound.z - origin.z) / (dimensions.z : ℚ))
    centroid := (0.5 : ℚ) • (origin + maxBound)
    nodeVolumes :=
      ⟨fun i j k =>
        nodeVolume
          ((maxBound.x - origin.x) / (dimensions.x : ℚ),
           (maxBound.y - origin.y) / (dimensions.y : ℚ),
           (maxBound.z - origin.z) / (dimensions.z : ℚ)) dimensions i j k,
       dimensions⟩
    timestep := timestep
    potential := ⟨fun _ _ _ => 0, dimensions⟩
    chargeDensity := ⟨fun _ _ _ => 0, dimensions⟩
    electricField := ⟨fun _ _ _ => 0, dimensions⟩ }

/-- Embeds `BoxMesh::position_to_logical_coordinate` (`src/mesh.rs`
lines 135-141). -/
def BoxMesh.positionToLogicalCoordinate (m : BoxMesh) (position : Vec3) : Vec3 :=
  ⟨(position.x - m.origin.x) / m.cellSpacings.1,
   (position.y - m.origin.y) / m.cellSpacings.2.1,
   (position.z - m.origin.z) / m.cellSpacings.2.2⟩

/-- The interior node indices swept by `BoxMesh::solve_potential`
(`src/mesh.rs` lines 201-203): `i` in `1..dim.x-1`, then `j`, then `k`, in
ascending lexicographic order. -/
def interiorList (d : Dimensions) : List (ℕ × ℕ × ℕ) :=
  (List.range' 1 (d.x - 1 - 1)).flatMap fun i =>
    (List.range' 1 (d.y - 1 - 1)).flatMap fun j =>
      (List.range' 1 (d.z - 1 - 1)).map fun k => (i, j, k)

/-- Embeds one Gauss-Seidel/SOR node update of `BoxMesh::solve_potential`
(`src/mesh.rs` lines 204-214): the new value combines the local charge density
over the permittivity with the six neighbour potentials weighted by inverse
squared spacings, then over-relaxes with factor `1.4`. -/
def gsUpdate (dx2 dy2 dz2 gsDenom : ℚ) (rho : Grid ℚ) (phi : Grid ℚ)
    (t : ℕ × ℕ × ℕ) : Grid ℚ :=
  let i := t.1
  let j := t.2.1
  let k := t.2.2
  let newPhi :=
    ((rho i j k / PERMITTIVITY)
      + dx2 * (phi (i - 1) j k + phi (i + 1) j k)
      + dy2 * (phi i (j - 1) k + phi i (j + 1) k)
      + dz2 * (phi i j (k - 1) + phi i j (k + 1))) / gsDenom
  let currentPhi := phi i j k
  fun a b c =>
    if a = i ∧ b = j ∧ c = k then currentPhi + 1.4 * (newPhi - currentPhi)
    else phi a b c

/-- One full Gauss-Seidel sweep over the interior nodes, updating in place in
ascending `i`, `j`, `k` order (`src/mesh.rs` lines 201-217). -/
def sweepOnce (d : Dimensions) (dx2 dy2 dz2 gsDenom : ℚ) (rho : Grid ℚ)
    (phi : Grid ℚ) : Grid ℚ :=
  (interiorList d).foldl (gsUpdate dx2 dy2 dz2 gsDenom rho) phi

/-- The sum of squared residuals of the discrete Poisson equation over the
interior nodes (`src/mesh.rs` lines 221-234). -/
def residSumSq (d : Dimensions) (dx2 dy2 dz2 gsDenom : ℚ) (rho : Grid ℚ)
    (phi : Grid ℚ) : ℚ :=
  ((interiorList d).map fun t =>
    let i := t.1
    let j := t.2.1
    let k := t.2.2
    let r := -phi i j k * gsDenom + (rho i j k / PERMITTIVITY)
      + dx2 * (phi (i - 1) j k + phi (i + 1) j k)
      + dy2 * (phi i (j - 1) k + phi i (j + 1) k)
      + dz2 * (phi i j (k - 1) + phi i j (k + 1))
    r * r).sum

/-- The convergence test of `BoxMesh::solve_potential` (`src/mesh.rs`
lines 236-240): the source compares `sqrt(sum / volume) < tolerance` where
`volume = dim.x * dim.y * dim.z` is the TOTAL node count; over an ordered
field this is equivalent (for the nonnegative radicand `sum / volume`) to
`0 ≤ tolerance ∧ sum / volume < tolerance²`, which is how it is stated here
to stay within exact rational arithmetic. -/
def residCheck (d : Dimensions) (dx2 dy2 dz2 gsDenom : ℚ) (rho : Grid ℚ)
    (tol : ℚ) (phi : Grid ℚ) : Prop :=
  0 ≤ tol ∧
    residSumSq d dx2 dy2 dz2 gsDenom rho phi / ((d.x * d.y * d.z : ℕ) : ℚ)
      < tol * tol

instance (d : Dimensions) (dx2 dy2 dz2 gsDenom : ℚ) (rho : Grid ℚ) (tol : ℚ)
    (phi : Grid ℚ) : Decidable (residCheck d dx2 dy2 dz2 gsDenom rho tol phi) := by
  unfold residCheck
  infer_instance

/-- Embeds the iteration loop of `BoxMesh::solve_potential` (`src/mesh.rs`
lines 200-242): each iteration sweeps the interior once; at iterations that
are nonzero multiples of 25 the residual check runs and on success the loop
breaks reporting convergence. -/
def solveLoop (d : Dimensions) (dx2 dy2 dz2 gsDenom : ℚ) (rho : Grid ℚ)
    (tol : ℚ) : ℕ → ℕ → Grid ℚ → Grid ℚ × Bool
  | 0, _, phi => (phi, false)
  | fuel + 1, iteration, phi =>
    if iteration ≠ 0 ∧ iteration % 25 = 0 ∧
        residCheck d dx2 dy2 dz2 gsDenom rho tol
          (sweepOnce d dx2 dy2 dz2 gsDenom rho phi) then
      (sweepOnce d dx2 dy2 dz2 gsDenom rho phi, true)
    else
      solveLoop d dx2 dy2 dz2 gsDenom rho tol fuel (iteration + 1)
        (sweepOnce d dx2 dy2 dz2 gsDenom rho phi)

/-- The inverse squared x spacing local `dx2` of `BoxMesh::solve_potential`
(`src/mesh.rs` line 185). -/
def BoxMesh.dx2 (m : BoxMesh) : ℚ := 1 / (m.cellSpacings.1 * m.cellSpacings.1)

/-- The inverse squared y spacing local `dy2` of `BoxMesh::solve_potential`
(`src/mesh.rs` line 186). -/
def BoxMesh.dy2 (m : BoxMesh) : ℚ := 1 / (m.cellSpacings.2.1 * m.cellSpacings.2.1)

/-- The inverse squared z spacing local `dz2` of `BoxMesh::solve_potential`
(`src/mesh.rs` line 187). -/
def BoxMesh.dz2 (m : BoxMesh) : ℚ := 1 / (m.cellSpacings.2.2 * m.cellSpacings.2.2)

/-- The `gauss_seidel_denominator` local of `BoxMesh::solve_potential`
(`src/mesh.rs` line 196). -/
def BoxMesh.gsDenominator (m : BoxMesh) : ℚ := 2 * m.dx2 + 2 * m.dy2 + 2 * m.dz2

/-- Embeds `BoxMesh::solve_potential` (`src/mesh.rs` lines 184-245): returns
the mesh with its updated potential, and the convergence flag. -/
def BoxMesh.solvePotential (m : BoxMesh) (maxSolverIterations : ℕ) (tol : ℚ) :
    BoxMesh × Bool :=
  let r := solveLoop m.dimensions m.dx2 m.dy2 m.dz2 m.gsDenominator
    m.chargeDensity.data tol maxSolverIterations 0 m.potential.data
  ({ m with potential := ⟨r.1, m.potential.shape⟩ }, r.2)

/-- Modelled from the spec: the convergence quantity the spec (§4.2 and the
claim) describes, namely the squared-residual sum divided by the INTERIOR node
count `(dim.x-2)(dim.y-2)(dim.z-2)` instead of the total node count; stated
(like `residCheck`) with the square-root comparison rewritten as
`0 ≤ tolerance ∧ mean < tolerance²`. This definition exists only to be
compared with the source-derived `residCheck`. -/
def specResidCheck (d : Dimensions) (dx2 dy2 dz2 gsDenom : ℚ) (rho : Grid ℚ)
    (tol : ℚ) (phi : Grid ℚ) : Prop :=
  0 ≤ tol ∧
    residSumSq d dx2 dy2 dz2 gsDenom rho phi
        / (((d.x - 2) * (d.y - 2) * (d.z - 2) : ℕ) : ℚ)
      < tol * tol

/-- Embeds `Particle` (`src/particle.rs`). -/
structure Particle where
  position : Vec3
  velocity : Vec3
  macroparticleWeight : ℚ
deriving DecidableEq

/-- Embeds the per-particle body of `Species::advance` (`src/species.rs`
lines 80-110): gather the electric field at the particle's logical coordinate
`lc` (computed from the PRE-push position), update velocity then position,
then reflect per axis — the reflection tests use that same pre-push `lc`. -/
def advanceParticle (m : BoxMesh) (charge mass : ℚ) (p : Particle) : Particle :=
  let lc := m.positionToLogicalCoordinate p.position
  let electricField := m.electricField.gather lc
  let v1 := p.velocity + (m.timestep * (charge / mass)) • electricField
  let x1 := p.position + m.timestep • v1
  let rx : ℚ × ℚ :=
    if lc.x < 0 then (2 * m.origin.x - x1.x, v1.x * (-1))
    else if ((m.dimensions.x - 1 : ℕ) : ℚ) ≤ lc.x then
      (2 * m.maxBound.x - x1.x, v1.x * (-1))
    else (x1.x, v1.x)
  let ry : ℚ × ℚ :=
    if lc.y < 0 then (2 * m.origin.y - x1.y, v1.y * (-1))
    else if ((m.dimensions.y - 1 : ℕ) : ℚ) ≤ lc.y then
      (2 * m.maxBound.y - x1.y, v1.y * (-1))
    else (x1.y, v1.y)
  let rz : ℚ × ℚ :=
    if lc.z < 0 then (2 * m.origin.z - x1.z, v1.z * (-1))
    else if ((m.dimensions.z - 1 : ℕ) : ℚ) ≤ lc.z then
      (2 * m.maxBound.z - x1.z, v1.z * (-1))
    else (x1.z, v1.z)
  ⟨⟨rx.1, ry.1, rz.1⟩, ⟨rx.2, ry.2, rz.2⟩, p.macroparticleWeight⟩

/-- Embeds `Species::advance` (`src/species.rs` lines 74-111) on the particle
collection of a species with the given charge and mass. -/
def advanceSpecies (m : BoxMesh) (charge mass : ℚ) (ps : List Particle) :
    List Particle :=
  ps.map (advanceParticle m charge mass)

/-- The velocity and position of a particle right after the leapfrog push of
`Species::advance` (`src/species.rs` lines 81-84), before the reflection
step. -/
def pushedState (m : BoxMesh) (charge mass : ℚ) (p : Particle) : Vec3 × Vec3 :=
  let lc := m.positionToLogicalCoordinate p.position
  let electricField := m.electricField.gather lc
  let v1 := p.velocity + (m.timestep * (charge / mass)) • electricField
  (p.position + m.timestep • v1, v1)

/-- The squared speed of a velocity vector (twice the kinetic energy per unit
mass), the quantity boundary reflection must conserve. -/
def speedSq (v : Vec3) : ℚ :=
  v.x * v.x + v.y * v.y + v.z * v.z

/-- The boundary weight factor applied by `Species::load_particles_box_qs`
(`src/species.rs` lines 193-205): the macroparticle weight is halved once per
axis on which the lattice index is `0` or the last index. -/
def qsWeightFactor (n : ℕ × ℕ × ℕ) (i j k : ℕ) : ℚ :=
  let f : ℚ := 1
  let f := if i = 0 ∨ i = n.1 - 1 then f * 0.5 else f
  let f := if j = 0 ∨ j = n.2.1 - 1 then f * 0.5 else f
  let f := if k = 0 ∨ k = n.2.2 - 1 then f * 0.5 else f
  f

/-- The per-particle base macroparticle weight of
`Species::load_particles_box_qs` (`src/species.rs` lines 161-166):
`number_density * box_volume / ((n.0-1)(n.1-1)(n.2-1))`. -/
def qsMacroWeight (origin opposite : Vec3) (numberDensity : ℚ)
    (n : ℕ × ℕ × ℕ) : ℚ :=
  numberDensity * ((opposite.x - origin.x) * (opposite.y - origin.y)
      * (opposite.z - origin.z))
    / (((n.1 - 1) * (n.2.1 - 1) * (n.2.2 - 1) : ℕ) : ℚ)

/-- The sum of `macroparticle_weight * weight_factor` over the whole loading
lattice of `Species::load_particles_box_qs` (`src/species.rs` lines 174-216):
the loop appends exactly one particle per lattice triple `(i, j, k)` with
weight `qsMacroWeight * qsWeightFactor`, so this is the total loaded weight. -/
def qsTotalWeight (origin opposite : Vec3) (numberDensity : ℚ)
    (n : ℕ × ℕ × ℕ) : ℚ :=
  ∑ i ∈ Finset.range n.1, ∑ j ∈ Finset.range n.2.1, ∑ k ∈ Finset.range n.2.2,
    qsMacroWeight origin opposite numberDensity n * qsWeightFactor n i j k

/-- The sum of all node volumes of a mesh over its full index range. -/
def totalNodeVolume (m : BoxMesh) : ℚ :=
  ∑ i ∈ Finset.range m.dimensions.x, ∑ j ∈ Finset.range m.dimensions.y,
    ∑ k ∈ Finset.range m.dimensions.z, m.nodeVolumes.data i j k

/-- The sum of all entries of a scalar field over a given shape, used to state
what total quantity a `scatter` call deposits. -/
def gridTotal (g : Grid ℚ) (d : Dimensions) : ℚ :=
  ∑ i ∈ Finset.range d.x, ∑ j ∈ Finset.range d.y, ∑ k ∈ Finset.range d.z,
    g i j k

/-! ## General lemmas about the particle-mesh operators -/

lemma not_scatterOutOfRange_iff (shape : Dimensions) (lc : Vec3) :
    ¬ scatterOutOfRange shape lc ↔
      0 ≤ lc.x ∧ lc.x < ((shape.x - 1 : ℕ) : ℚ)
        ∧ 0 ≤ lc.y ∧ lc.y < ((shape.y - 1 : ℕ) : ℚ)
        ∧ 0 ≤ lc.z ∧ lc.z < ((shape.z - 1 : ℕ) : ℚ) := by
  unfold scatterOutOfRange
  push_neg
  tauto

lemma floor_toNat_le (q : ℚ) (h0 : 0 ≤ q) : ((⌊q⌋.toNat : ℕ) : ℚ) ≤ q := by
  have hf : 0 ≤ ⌊q⌋ := Int.floor_nonneg.mpr h0
  have h1 : ((⌊q⌋.toNat : ℤ) : ℚ) ≤ q := by
    rw [Int.toNat_of_nonneg hf]
    exact Int.floor_le q
  exact_mod_cast h1

lemma floor_toNat_lt (q : ℚ) (n : ℕ) (h0 : 0 ≤ q) (h : q < ((n - 1 : ℕ) : ℚ)) :
    ⌊q⌋.toNat < n - 1 := by
  have hf : 0 ≤ ⌊q⌋ := Int.floor_nonneg.mpr h0
  have h1 : ⌊q⌋ < ((n - 1 : ℕ) : ℤ) := by
    rw [Int.floor_lt]
    exact_mod_cast h
  omega

/-- Gathering at an exact integer node coordinate reads off the field value at
that node. -/
lemma gather_at_node (f : Field ℚ) (i j k : ℕ) :
    f.gather ⟨(i : ℚ), (j : ℚ), (k : ℚ)⟩ = f.data i j k := by
  unfold Field.gather
  simp only [Int.floor_natCast, Int.toNat_natCast, sub_self, smul_eq_mul]
  ring

/-- Scattering then gathering at an in-range integer node coordinate adds the
scattered value to the previous nodal value. -/
lemma gather_scatter_at_node (f : Field ℚ) (i j k : ℕ) (v : ℚ)
    (hx : ((i : ℚ)) < ((f.shape.x - 1 : ℕ) : ℚ))
    (hy : ((j : ℚ)) < ((f.shape.y - 1 : ℕ) : ℚ))
    (hz : ((k : ℚ)) < ((f.shape.z - 1 : ℕ) : ℚ)) :
    (f.scatter ⟨(i : ℚ), (j : ℚ), (k : ℚ)⟩ v).gather ⟨(i : ℚ), (j : ℚ), (k : ℚ)⟩
      = f.data i j k + v := by
  rw [gather_at_node]
  unfold Field.scatter
  rw [if_neg]
  · simp only [Int.floor_natCast, Int.toNat_natCast, sub_self, smul_eq_mul]
    have h1 : ¬ (i = i + 1) := by omega
    have h2 : ¬ (j = j + 1) := by omega
    have h3 : ¬ (k = k + 1) := by omega
    simp [h1, h2, h3]
  · rw [not_scatterOutOfRange_iff]
    refine ⟨by positivity, hx, by positivity, hy, by positivity, hz⟩

/-- Gathering halfway between two nodes along the x axis averages the two
nodal values. -/
lemma gather_halfway (f : Field ℚ) (i j k : ℕ) :
    f.gather ⟨(i : ℚ) + 1/2, (j : ℚ), (k : ℚ)⟩
      = (f.data i j k + f.data (i + 1) j k) / 2 := by
  unfold Field.gather
  have hfloor : ⌊(i : ℚ) + 1/2⌋ = (i : ℤ) := by
    rw [Int.floor_eq_iff]
    constructor
    · push_cast
      linarith
    · push_cast
      linarith
  simp only [hfloor, Int.floor_natCast, Int.toNat_natCast, sub_self, smul_eq_mul]
  ring

lemma sum_halfFactor (d : ℕ) (hd : 2 ≤ d) :
    ∑ i ∈ Finset.range d, halfFactor d i = (d : ℚ) - 1 := by
  obtain ⟨e, rfl⟩ : ∃ e, d = e + 2 := ⟨d - 2, by omega⟩
  rw [Finset.sum_range_succ, Finset.sum_range_succ']
  have hlast : halfFactor (e + 2) (e + 1) = 0.5 := by
    unfold halfFactor
    simp
  have hfirst : halfFactor (e + 2) 0 = 0.5 := by
    unfold halfFactor
    simp
  have hmid : ∀ i ∈ Finset.range e, halfFactor (e + 2) (i + 1) = 1 := by
    intro i hi
    rw [Finset.mem_range] at hi
    unfold halfFactor
    rw [if_neg]
    omega
  rw [Finset.sum_congr rfl hmid, hlast, hfirst, Finset.sum_const,
    Finset.card_range]
  push_cast
  ring

lemma tripleSum_mul (n1 n2 n3 : ℕ) (S : ℚ) (f g h : ℕ → ℚ) :
    (∑ i ∈ Finset.range n1, ∑ j ∈ Finset.range n2, ∑ k ∈ Finset.range n3,
        S * (f i * (g j * h k)))
      = S * ((∑ i ∈ Finset.range n1, f i) * ((∑ j ∈ Finset.range n2, g j)
          * (∑ k ∈ Finset.range n3, h k))) := by
  simp_rw [← Finset.mul_sum, ← Finset.sum_mul]

lemma nodeVolume_eq (cs : ℚ × ℚ × ℚ) (d : Dimensions) (i j k : ℕ) :
    nodeVolume cs d i j k
      = (cs.1 * cs.2.1 * cs.2.2)
          * (halfFactor d.x i * (halfFactor d.y j * halfFactor d.z k)) := by
  unfold nodeVolume halfFactor
  split_ifs <;> ring

lemma qsWeightFactor_eq (n : ℕ × ℕ × ℕ) (i j k : ℕ) :
    qsWeightFactor n i j k
      = halfFactor n.1 i * (halfFactor n.2.1 j * halfFactor n.2.2 k) := by
  unfold qsWeightFactor halfFactor
  split_ifs <;> ring

/-! ## Concrete fixtures used by witnesses and counterexamples -/

/-- A concrete nonzero scalar field on a 3×3×3 shape. -/
def rampField : Field ℚ :=
  ⟨fun a b c => (a : ℚ) + 2 * (b : ℚ) + 3 * (c : ℚ), ⟨3, 3, 3⟩⟩

/-- A concrete scalar field on a 3×3×3 shape holding `1` at node `(1,1,1)`
and `0` elsewhere. -/
def spikeField : Field ℚ :=
  ⟨fun a b c => if a = 1 ∧ b = 1 ∧ c = 1 then 1 else 0, ⟨3, 3, 3⟩⟩

/-! ## Claim C5 -/

/-- C5: for every field, every value, and every logical coordinate that is
below 0 or at or beyond `dim - 1` on at least one axis, `Field::scatter`
leaves the field unchanged — the call is a no-op, not an error. -/
theorem scatter_out_of_range_noop {V : Type} [Zero V] [Add V] [SMul ℚ V]
    (f : Field V) (lc : Vec3) (v : V) (h : scatterOutOfRange f.shape lc) :
    f.scatter lc v = f := by
  unfold Field.scatter
  rw [if_pos h]

/-- Witness for C5 at a concrete out-of-range coordinate and a concrete
nonzero field. -/
theorem scatter_out_of_range_noop_witness :
    scatterOutOfRange rampField.shape ⟨-1, 1, 1⟩ ∧
      rampField.scatter ⟨-1, 1, 1⟩ 5 = rampField := by
  have h : scatterOutOfRange rampField.shape ⟨-1, 1, 1⟩ := by
    unfold scatterOutOfRange
    left
    show (-1 : ℚ) < 0
    norm_num
  exact ⟨h, scatter_out_of_range_noop rampField ⟨-1, 1, 1⟩ 5 h⟩

/-! ## Claim C6 -/

/-- C6: for every logical coordinate strictly inside `[0, dim-1)` on all
axes, the eight trilinear weights used by `Field::scatter` sum to exactly 1,
and consequently scattering a value adds exactly that value to the total
content of the field. -/
theorem scatter_weights_sum_to_one (f : Field ℚ) (lc : Vec3) (v : ℚ)
    (h : ¬ scatterOutOfRange f.shape lc) :
    (scatterWeightList lc).sum = 1 ∧
      gridTotal (f.scatter lc v).data f.shape = gridTotal f.data f.shape + v := by
  obtain ⟨h0x, h1x, h0y, h1y, h0z, h1z⟩ := (not_scatterOutOfRange_iff _ _).mp h
  have hix : ⌊lc.x⌋.toNat < f.shape.x - 1 := floor_toNat_lt _ _ h0x h1x
  have hjy : ⌊lc.y⌋.toNat < f.shape.y - 1 := floor_toNat_lt _ _ h0y h1y
  have hkz : ⌊lc.z⌋.toNat < f.shape.z - 1 := floor_toNat_lt _ _ h0z h1z
  have hsx : 0 < f.shape.x - 1 := by
    have := lt_of_le_of_lt h0x h1x
    exact_mod_cast Nat.cast_pos.mp this
  have hsy : 0 < f.shape.y - 1 := by
    have := lt_of_le_of_lt h0y h1y
    exact_mod_cast Nat.cast_pos.mp this
  have hsz : 0 < f.shape.z - 1 := by
    have := lt_of_le_of_lt h0z h1z
    exact_mod_cast Nat.cast_pos.mp this
  constructor
  · unfold scatterWeightList
    simp only [List.sum_cons, List.sum_nil]
    ring
  · have ha1 : ⌊lc.x⌋.toNat < f.shape.x := by omega
    have ha2 : ⌊lc.x⌋.toNat + 1 < f.shape.x := by omega
    have hb1 : ⌊lc.y⌋.toNat < f.shape.y := by omega
    have hb2 : ⌊lc.y⌋.toNat + 1 < f.shape.y := by omega
    have hc1 : ⌊lc.z⌋.toNat < f.shape.z := by omega
    have hc2 : ⌊lc.z⌋.toNat + 1 < f.shape.z := by omega
    unfold gridTotal
    simp only [Field.scatter, if_neg h]
    simp only [Finset.sum_add_distrib, Finset.sum_ite_irrel,
      Finset.sum_const_zero, Finset.sum_ite_eq', Finset.mem_range,
      ha1, ha2, hb1, hb2, hc1, hc2, if_true, smul_eq_mul]
    ring

/-- Witness for C6 at a concrete strictly interior fractional coordinate. -/
theorem scatter_weights_sum_to_one_witness :
    ¬ scatterOutOfRange rampField.shape ⟨1/2, 1/2, 3/2⟩ ∧
      (scatterWeightList ⟨1/2, 1/2, 3/2⟩).sum = 1 := by
  have h : ¬ scatterOutOfRange rampField.shape ⟨1/2, 1/2, 3/2⟩ := by
    rw [not_scatterOutOfRange_iff]
    refine ⟨by norm_num, ?_, by norm_num, ?_, by norm_num, ?_⟩ <;>
      · show (_ : ℚ) < ((3 - 1 : ℕ) : ℚ)
        norm_num
  exact ⟨h, (scatter_weights_sum_to_one rampField ⟨1/2, 1/2, 3/2⟩ 1 h).1⟩

/-! ## Claim C9 -/

/-- C9 counterexample: scattering a unit value at the in-range integer node
coordinate `(1,1,1)` of a field that already holds `1` there and then
gathering at that same coordinate returns `2`, not the scattered unit value:
the round trip returns prior content plus the deposit, so the claim's
"returns exactly that value for every field" is false. -/
theorem gather_scatter_roundtrip_counterexample :
    (spikeField.scatter ⟨1, 1, 1⟩ 1).gather ⟨1, 1, 1⟩ = 2 ∧ (2 : ℚ) ≠ 1 := by
  refine ⟨?_, by norm_num⟩
  have h := gather_scatter_at_node spikeField 1 1 1 1
    (by show ((1 : ℕ) : ℚ) < ((3 - 1 : ℕ) : ℚ); norm_num)
    (by show ((1 : ℕ) : ℚ) < ((3 - 1 : ℕ) : ℚ); norm_num)
    (by show ((1 : ℕ) : ℚ) < ((3 - 1 : ℕ) : ℚ); norm_num)
  have hd : spikeField.data 1 1 1 = 1 := by
    unfold spikeField
    norm_num
  rw [hd] at h
  norm_num at h
  exact h

/-- C9 (amended): gathering after scattering at an in-range exact integer
node coordinate returns the node's prior value plus the scattered value
(hence exactly the value on a previously zero node), and gathering halfway
between two nodes holding `a` and `b` returns `(a+b)/2`; both through the
trilinear 8-node weighting `Field::gather` shares with `Field::scatter`. -/
theorem gather_scatter_duality (f g : Field ℚ) (i j k : ℕ) (v a b : ℚ)
    (hx : ((i : ℚ)) < ((f.shape.x - 1 : ℕ) : ℚ))
    (hy : ((j : ℚ)) < ((f.shape.y - 1 : ℕ) : ℚ))
    (hz : ((k : ℚ)) < ((f.shape.z - 1 : ℕ) : ℚ))
    (ha : g.data i j k = a) (hb : g.data (i + 1) j k = b) :
    (f.scatter ⟨(i : ℚ), (j : ℚ), (k : ℚ)⟩ v).gather ⟨(i : ℚ), (j : ℚ), (k : ℚ)⟩
        = f.data i j k + v ∧
      g.gather ⟨(i : ℚ) + 1/2, (j : ℚ), (k : ℚ)⟩ = (a + b) / 2 := by
  refine ⟨gather_scatter_at_node f i j k v hx hy hz, ?_⟩
  rw [gather_halfway, ha, hb]

/-- Witness for C9 (amended) at concrete fields and coordinates. -/
theorem gather_scatter_duality_witness :
    ((1 : ℚ)) < ((rampField.shape.x - 1 : ℕ) : ℚ) ∧
      rampField.data 1 1 1 = 6 ∧ rampField.data 2 1 1 = 7 ∧
      (rampField.scatter ⟨(1 : ℚ), (1 : ℚ), (1 : ℚ)⟩ 5).gather
          ⟨(1 : ℚ), (1 : ℚ), (1 : ℚ)⟩ = 6 + 5 ∧
      rampField.gather ⟨(1 : ℚ) + 1/2, (1 : ℚ), (1 : ℚ)⟩ = (6 + 7) / 2 := by
  have hx : ((1 : ℕ) : ℚ) < ((rampField.shape.x - 1 : ℕ) : ℚ) := by
    show ((1 : ℕ) : ℚ) < ((3 - 1 : ℕ) : ℚ)
    norm_num
  have ha : rampField.data 1 1 1 = 6 := by
    unfold rampField
    norm_num
  have hb : rampField.data 2 1 1 = 7 := by
    unfold rampField
    norm_num
  have h := gather_scatter_duality rampField rampField 1 1 1 5 6 7 hx hx hx ha hb
  refine ⟨by exact_mod_cast hx, ha, hb, ?_, ?_⟩
  · have := h.1
    rw [ha] at this
    exact_mod_cast this
  · have := h.2
    exact_mod_cast this

/-! ## Claim C2 -/

/-- C2 counterexample: for the mesh built by `BoxMesh::new` on the unit box
`[0,1]³` with dimensions `(3,3,3)`, the node volumes sum to `8/27`, while the
domain volume is `1`; the claimed equality fails because the cell spacings
divide by `dimensions` rather than `dimensions - 1`. -/
theorem node_volume_sum_counterexample :
    totalNodeVolume (BoxMesh.new ⟨0, 0, 0⟩ ⟨1, 1, 1⟩ ⟨3, 3, 3⟩ 1) = 8 / 27 ∧
      ((1 : ℚ) - 0) * ((1 : ℚ) - 0) * ((1 : ℚ) - 0) = 1 ∧ (8 / 27 : ℚ) ≠ 1 := by
  refine ⟨?_, by norm_num, by norm_num⟩
  unfold totalNodeVolume BoxMesh.new
  simp only [nodeVolume_eq]
  rw [tripleSum_mul]
  rw [sum_halfFactor 3 (by norm_num)]
  norm_num

/-- C2 (amended): for every mesh built by `BoxMesh::new` with all dimensions
at least 3 and `max_bound` strictly above `origin` on each axis, the node
volumes sum to `Πᵢ (max_bound[i] - origin[i]) · (dim[i] - 1) / dim[i]` — a
factor `(dim[i]-1)/dim[i]` short of the claimed total domain volume on each
axis, because `cell_spacings[i] = (max_bound[i] - origin[i]) / dimensions[i]`
while only `dim[i] - 1` inter-node gaps lie inside the domain. -/
theorem node_volume_sum (o mb : Vec3) (d : Dimensions) (dt : ℚ)
    (hx : 3 ≤ d.x) (hy : 3 ≤ d.y) (hz : 3 ≤ d.z)
    (hox : o.x < mb.x) (hoy : o.y < mb.y) (hoz : o.z < mb.z) :
    totalNodeVolume (BoxMesh.new o mb d dt)
      = ((mb.x - o.x) * ((d.x : ℚ) - 1) / (d.x : ℚ))
        * ((mb.y - o.y) * ((d.y : ℚ) - 1) / (d.y : ℚ))
        * ((mb.z - o.z) * ((d.z : ℚ) - 1) / (d.z : ℚ)) := by
  unfold totalNodeVolume BoxMesh.new
  simp only [nodeVolume_eq]
  rw [tripleSum_mul]
  rw [sum_halfFactor _ (by omega), sum_halfFactor _ (by omega),
    sum_halfFactor _ (by omega)]
  have hdx : ((d.x : ℚ)) ≠ 0 := by positivity
  have hdy : ((d.y : ℚ)) ≠ 0 := by positivity
  have hdz : ((d.z : ℚ)) ≠ 0 := by positivity
  field_simp
  ring

/-- Witness for C2 (amended) on the unit box with dimensions 3×3×3. -/
theorem node_volume_sum_witness :
    (3 ≤ 3 ∧ (0 : ℚ) < 1) ∧
      totalNodeVolume (BoxMesh.new ⟨0, 0, 0⟩ ⟨1, 1, 1⟩ ⟨3, 3, 3⟩ 1) = 8 / 27 := by
  refine ⟨⟨le_refl 3, by norm_num⟩, ?_⟩
  have h := node_volume_sum ⟨0, 0, 0⟩ ⟨1, 1, 1⟩ ⟨3, 3, 3⟩ 1
    (by norm_num) (by norm_num) (by norm_num)
    (by norm_num) (by norm_num) (by norm_num)
  rw [h]
  norm_num

/-! ## Claim C7 -/

/-- C7: for every box, target density and lattice counts all at least 2, the
total macroparticle weight loaded by `Species::load_particles_box_qs` equals
`density · volume` exactly: the boundary half-weights per axis sum to
`n - 1`, cancelling the division by `(n.0-1)(n.1-1)(n.2-1)`. -/
theorem qs_total_weight_conserved (origin opposite : Vec3) (density : ℚ)
    (n : ℕ × ℕ × ℕ) (h1 : 2 ≤ n.1) (h2 : 2 ≤ n.2.1) (h3 : 2 ≤ n.2.2) :
    qsTotalWeight origin opposite density n
      = density * ((opposite.x - origin.x) * (opposite.y - origin.y)
          * (opposite.z - origin.z)) := by
  obtain ⟨a, ha⟩ : ∃ a, n.1 = a + 2 := ⟨n.1 - 2, by omega⟩
  obtain ⟨b, hb⟩ : ∃ b, n.2.1 = b + 2 := ⟨n.2.1 - 2, by omega⟩
  obtain ⟨c, hc⟩ : ∃ c, n.2.2 = c + 2 := ⟨n.2.2 - 2, by omega⟩
  unfold qsTotalWeight
  simp_rw [qsWeightFactor_eq]
  rw [tripleSum_mul]
  rw [sum_halfFactor _ (by omega), sum_halfFactor _ (by omega),
    sum_halfFactor _ (by omega)]
  unfold qsMacroWeight
  rw [ha, hb, hc]
  have e1 : a + 2 - 1 = a + 1 := by omega
  have e2 : b + 2 - 1 = b + 1 := by omega
  have e3 : c + 2 - 1 = c + 1 := by omega
  simp only [e1, e2, e3]
  push_cast
  have hna : ((a : ℚ) + 1) ≠ 0 := by positivity
  have hnb : ((b : ℚ) + 1) ≠ 0 := by positivity
  have hnc : ((c : ℚ) + 1) ≠ 0 := by positivity
  field_simp
  left
  ring

/-- Witness for C7 on the unit box with a 2×3×4 lattice and density 6. -/
theorem qs_total_weight_conserved_witness :
    (2 ≤ 2 ∧ 2 ≤ 3 ∧ 2 ≤ 4) ∧
      qsTotalWeight ⟨0, 0, 0⟩ ⟨1, 1, 1⟩ 6 (2, 3, 4) = 6 := by
  refine ⟨⟨le_refl 2, by norm_num, by norm_num⟩, ?_⟩
  have h := qs_total_weight_conserved ⟨0, 0, 0⟩ ⟨1, 1, 1⟩ 6 (2, 3, 4)
    (by norm_num) (by norm_num) (by norm_num)
  rw [h]
  norm_num

/-! ## Lemmas about the relaxation solver -/

/-- One sweep as a self-map, for stating iterated applications. -/
def sweepFun (d : Dimensions) (dx2 dy2 dz2 gsDenom : ℚ) (rho : Grid ℚ) :
    Grid ℚ → Grid ℚ :=
  fun phi => sweepOnce d dx2 dy2 dz2 gsDenom rho phi

lemma mem_interiorList {d : Dimensions} {t : ℕ × ℕ × ℕ}
    (h : t ∈ interiorList d) :
    1 ≤ t.1 ∧ t.1 < d.x - 1 ∧ 1 ≤ t.2.1 ∧ t.2.1 < d.y - 1
      ∧ 1 ≤ t.2.2 ∧ t.2.2 < d.z - 1 := by
  unfold interiorList at h
  simp only [List.mem_flatMap, List.mem_map, List.mem_range'] at h
  obtain ⟨i, ⟨ni, hni, hi⟩, j, ⟨nj, hnj, hj⟩, k, ⟨nk, hnk, hk⟩, ht⟩ := h
  subst ht
  simp only
  omega

lemma gsUpdate_apply_ne (dx2 dy2 dz2 gsDenom : ℚ) (rho phi : Grid ℚ)
    (t : ℕ × ℕ × ℕ) (a b c : ℕ) (h : ¬(a = t.1 ∧ b = t.2.1 ∧ c = t.2.2)) :
    gsUpdate dx2 dy2 dz2 gsDenom rho phi t a b c = phi a b c := by
  simp only [gsUpdate]
  rw [if_neg h]

lemma foldl_gsUpdate_apply_ne (dx2 dy2 dz2 gsDenom : ℚ) (rho : Grid ℚ)
    (L : List (ℕ × ℕ × ℕ)) (a b c : ℕ)
    (h : ∀ t ∈ L, ¬(a = t.1 ∧ b = t.2.1 ∧ c = t.2.2)) :
    ∀ phi : Grid ℚ,
      (L.foldl (gsUpdate dx2 dy2 dz2 gsDenom rho) phi) a b c = phi a b c := by
  induction L with
  | nil => intro phi; rfl
  | cons t L ih =>
    intro phi
    rw [List.foldl_cons,
      ih (fun u hu => h u (List.mem_cons_of_mem _ hu)),
      gsUpdate_apply_ne _ _ _ _ _ _ _ _ _ _ (h t (List.mem_cons_self t L))]

/-- A sweep never writes a node whose index is 0 or `dim - 1` on some axis. -/
lemma sweepOnce_boundary (d : Dimensions) (dx2 dy2 dz2 gsDenom : ℚ)
    (rho phi : Grid ℚ) (a b c : ℕ)
    (h : a = 0 ∨ a = d.x - 1 ∨ b = 0 ∨ b = d.y - 1 ∨ c = 0 ∨ c = d.z - 1) :
    sweepOnce d dx2 dy2 dz2 gsDenom rho phi a b c = phi a b c := by
  unfold sweepOnce
  apply foldl_gsUpdate_apply_ne
  intro t ht
  have hb := mem_interiorList ht
  rintro ⟨rfl, rfl, rfl⟩
  omega

/-- Any pointwise property preserved by the sweep holds for the potential the
solver loop returns. -/
lemma solveLoop_fst_inv (d : Dimensions) (dx2 dy2 dz2 gsDenom : ℚ)
    (rho : Grid ℚ) (tol : ℚ) (P : Grid ℚ → Prop)
    (hstep : ∀ g, P g → P (sweepOnce d dx2 dy2 dz2 gsDenom rho g)) :
    ∀ (fuel s : ℕ) (phi : Grid ℚ), P phi →
      P (solveLoop d dx2 dy2 dz2 gsDenom rho tol fuel s phi).1 := by
  intro fuel
  induction fuel with
  | zero => intro s phi hP; exact hP
  | succ n ih =>
    intro s phi hP
    simp only [solveLoop]
    split_ifs with hc
    · exact hstep phi hP
    · exact ih (s + 1) _ (hstep phi hP)

/-- The loop converges exactly when some iteration `n` in range, nonzero and
divisible by 25, passes the source's residual check on the potential obtained
after `n + 1 - s` further sweeps. -/
lemma solveLoop_converged_iff (d : Dimensions) (dx2 dy2 dz2 gsDenom : ℚ)
    (rho : Grid ℚ) (tol : ℚ) :
    ∀ (fuel s : ℕ) (phi : Grid ℚ),
      (solveLoop d dx2 dy2 dz2 gsDenom rho tol fuel s phi).2 = true ↔
        ∃ n, s ≤ n ∧ n < s + fuel ∧ n ≠ 0 ∧ n % 25 = 0 ∧
          residCheck d dx2 dy2 dz2 gsDenom rho tol
            ((sweepFun d dx2 dy2 dz2 gsDenom rho)^[n + 1 - s] phi) := by
  intro fuel
  induction fuel with
  | zero =>
    intro s phi
    simp only [solveLoop]
    constructor
    · intro h
      exact absurd h (by simp)
    · rintro ⟨n, h1, h2, -⟩
      omega
  | succ fuel ih =>
    intro s phi
    simp only [solveLoop]
    split_ifs with hc
    · constructor
      · intro _
        refine ⟨s, le_refl s, by omega, hc.1, hc.2.1, ?_⟩
        have h1 : s + 1 - s = 1 := by omega
        rw [h1, Function.iterate_one]
        exact hc.2.2
      · intro _
        rfl
    · rw [ih (s + 1) (sweepOnce d dx2 dy2 dz2 gsDenom rho phi)]
      constructor
      · rintro ⟨n, hn1, hn2, hn3, hn4, hn5⟩
        refine ⟨n, by omega, by omega, hn3, hn4, ?_⟩
        have he : n + 1 - (s + 1) = n - s := by omega
        rw [he] at hn5
        have he2 : n + 1 - s = (n - s) + 1 := by omega
        rw [he2, Function.iterate_succ_apply]
        exact hn5
      · rintro ⟨n, hn1, hn2, hn3, hn4, hn5⟩
        have hns : n ≠ s := by
          rintro rfl
          apply hc
          refine ⟨hn3, hn4, ?_⟩
          have h1 : n + 1 - n = 1 := by omega
          rw [h1, Function.iterate_one] at hn5
          exact hn5
        refine ⟨n, by omega, by omega, hn3, hn4, ?_⟩
        have he : n + 1 - (s + 1) = n - s := by omega
        rw [he]
        have he2 : n + 1 - s = (n - s) + 1 := by omega
        rw [he2, Function.iterate_succ_apply] at hn5
        exact hn5

/-- A sweep over a zero charge density maps the zero potential to itself. -/
lemma sweepOnce_zero (d : Dimensions) (dx2 dy2 dz2 gsDenom : ℚ)
    (rho : Grid ℚ) (hrho : ∀ a b c, rho a b c = 0)
    (phi : Grid ℚ) (hphi : ∀ a b c, phi a b c = 0) :
    ∀ a b c, sweepOnce d dx2 dy2 dz2 gsDenom rho phi a b c = 0 := by
  unfold sweepOnce
  have main : ∀ (L : List (ℕ × ℕ × ℕ)) (g : Grid ℚ), (∀ a b c, g a b c = 0) →
      ∀ a b c, (L.foldl (gsUpdate dx2 dy2 dz2 gsDenom rho) g) a b c = 0 := by
    intro L
    induction L with
    | nil => intro g hg a b c; exact hg a b c
    | cons t L ih =>
      intro g hg a b c
      rw [List.foldl_cons]
      apply ih
      intro a' b' c'
      simp only [gsUpdate]
      split_ifs with h
      · simp [hg, hrho]
      · exact hg a' b' c'
  exact main (interiorList d) phi hphi

/-- The squared-residual sum vanishes on zero charge density and zero
potential. -/
lemma residSumSq_zero (d : Dimensions) (dx2 dy2 dz2 gsDenom : ℚ)
    (rho : Grid ℚ) (hrho : ∀ a b c, rho a b c = 0)
    (phi : Grid ℚ) (hphi : ∀ a b c, phi a b c = 0) :
    residSumSq d dx2 dy2 dz2 gsDenom rho phi = 0 := by
  unfold residSumSq
  apply List.sum_eq_zero
  intro x hx
  simp only [List.mem_map] at hx
  obtain ⟨t, ht, rfl⟩ := hx
  simp [hphi, hrho]

/-- The source's residual check passes on a zero state for any positive
tolerance. -/
lemma residCheck_zero (d : Dimensions) (dx2 dy2 dz2 gsDenom : ℚ)
    (rho : Grid ℚ) (tol : ℚ) (htol : 0 < tol)
    (hrho : ∀ a b c, rho a b c = 0)
    (phi : Grid ℚ) (hphi : ∀ a b c, phi a b c = 0) :
    residCheck d dx2 dy2 dz2 gsDenom rho tol phi := by
  refine ⟨le_of_lt htol, ?_⟩
  rw [residSumSq_zero d dx2 dy2 dz2 gsDenom rho hrho phi hphi, zero_div]
  exact mul_pos htol htol

/-- On a zero source and zero initial potential, the loop converges (at its
iteration-25 check) as soon as the fuel reaches 26, and returns the zero
potential. -/
lemma solveLoop_zero_conv (d : Dimensions) (dx2 dy2 dz2 gsDenom : ℚ)
    (rho : Grid ℚ) (tol : ℚ)
    (hrho : ∀ a b c, rho a b c = 0) (htol : 0 < tol) :
    ∀ (fuel s : ℕ) (phi : Grid ℚ), (∀ a b c, phi a b c = 0) →
      s ≤ 25 → 26 ≤ s + fuel →
      (solveLoop d dx2 dy2 dz2 gsDenom rho tol fuel s phi).2 = true ∧
        ∀ a b c, (solveLoop d dx2 dy2 dz2 gsDenom rho tol fuel s phi).1 a b c = 0 := by
  intro fuel
  induction fuel with
  | zero => intro s phi _ h1 h2; omega
  | succ fuel ih =>
    intro s phi hphi hs hf
    have hz : ∀ a b c, sweepOnce d dx2 dy2 dz2 gsDenom rho phi a b c = 0 :=
      sweepOnce_zero d dx2 dy2 dz2 gsDenom rho hrho phi hphi
    simp only [solveLoop]
    split_ifs with hc
    · exact ⟨rfl, hz⟩
    · have hs25 : s ≠ 25 := by
        rintro rfl
        exact hc ⟨by omega, by norm_num,
          residCheck_zero d dx2 dy2 dz2 gsDenom rho tol htol hrho _ hz⟩
      exact ih (s + 1) _ hz (by omega) (by omega)

/-! ## Claim C8 -/

/-- C8: for every mesh and every `solve_potential` call, every potential node
with index 0 or `dim - 1` on at least one axis holds the same value after the
call as before it: the relaxation sweep never updates boundary nodes. -/
theorem solve_potential_preserves_boundary (m : BoxMesh) (maxIter : ℕ)
    (tol : ℚ) (a b c : ℕ)
    (h : a = 0 ∨ a = m.dimensions.x - 1 ∨ b = 0 ∨ b = m.dimensions.y - 1
      ∨ c = 0 ∨ c = m.dimensions.z - 1) :
    ((m.solvePotential maxIter tol).1).potential.data a b c
      = m.potential.data a b c := by
  unfold BoxMesh.solvePotential
  simp only
  exact solveLoop_fst_inv m.dimensions _ _ _ _ m.chargeDensity.data tol
    (fun g => g a b c = m.potential.data a b c)
    (fun g hg => by
      show sweepOnce m.dimensions _ _ _ _ m.chargeDensity.data g a b c
        = m.potential.data a b c
      rw [sweepOnce_boundary m.dimensions _ _ _ _ m.chargeDensity.data g a b c h]
      exact hg)
    maxIter 0 m.potential.data rfl

/-- A concrete mesh whose potential field is nonzero, used as a boundary
fixture. -/
def boundaryMesh : BoxMesh :=
  { BoxMesh.new ⟨0, 0, 0⟩ ⟨3, 3, 3⟩ ⟨3, 3, 3⟩ 1 with
    potential := ⟨fun a b c => (a : ℚ) + (b : ℚ) + (c : ℚ), ⟨3, 3, 3⟩⟩ }

/-- Witness for C8 at a concrete boundary node of a mesh with nonzero
potential. -/
theorem solve_potential_preserves_boundary_witness :
    (0 = 0 ∨ 0 = boundaryMesh.dimensions.x - 1 ∨ 1 = 0
      ∨ 1 = boundaryMesh.dimensions.y - 1 ∨ 2 = 0
      ∨ 2 = boundaryMesh.dimensions.z - 1) ∧
      ((boundaryMesh.solvePotential 60 1).1).potential.data 0 1 2
        = boundaryMesh.potential.data 0 1 2 :=
  ⟨Or.inl rfl,
    solve_potential_preserves_boundary boundaryMesh 60 1 0 1 2 (Or.inl rfl)⟩

/-! ## Claim C10 -/

/-- C10: with `max_solver_iterations ≤ 25` the solver can never report
convergence — the convergence check only runs at nonzero multiples of 25, and
iterations `0 .. max-1` contain none — so `solve_potential` returns `false`
for every mesh and tolerance, even when the residual is already below
tolerance. -/
theorem solve_potential_max_le_25_false (m : BoxMesh) (maxIter : ℕ) (tol : ℚ)
    (hmax : maxIter ≤ 25) :
    (m.solvePotential maxIter tol).2 = false := by
  unfold BoxMesh.solvePotential
  simp only
  by_contra hne
  rw [Bool.not_eq_false, solveLoop_converged_iff] at hne
  obtain ⟨n, h1, h2, h3, h4, -⟩ := hne
  omega

/-- The all-zero mesh produced by `BoxMesh::new` on `[0,3]³` with dimensions
`(3,3,3)` and unit timestep. -/
def zeroMesh : BoxMesh := BoxMesh.new ⟨0, 0, 0⟩ ⟨3, 3, 3⟩ ⟨3, 3, 3⟩ 1

/-- Witness for C10 on a concrete mesh whose initial residual is already zero
(below the tolerance 1). -/
theorem solve_potential_max_le_25_false_witness :
    25 ≤ 25 ∧ (zeroMesh.solvePotential 25 1).2 = false :=
  ⟨le_refl 25, solve_potential_max_le_25_false zeroMesh 25 1 (le_refl 25)⟩

/-! ## Claim C4 -/

/-- C4 counterexample: the all-zero mesh satisfies the claim's hypotheses
(zero charge density, zero potential, positive tolerance), yet
`solve_potential(1, 1)` returns `false` because `max_iterations = 1 ≤ 25`
never reaches the iteration-25 convergence check; so "any max_iterations" is
false. -/
theorem zero_source_counterexample :
    (∀ a b c, zeroMesh.chargeDensity.data a b c = 0) ∧
      (∀ a b c, zeroMesh.potential.data a b c = 0) ∧
      (0 : ℚ) < 1 ∧
      (zeroMesh.solvePotential 1 1).2 = false := by
  refine ⟨fun _ _ _ => rfl, fun _ _ _ => rfl, by norm_num, ?_⟩
  unfold BoxMesh.solvePotential
  simp only
  by_contra hne
  rw [Bool.not_eq_false, solveLoop_converged_iff] at hne
  obtain ⟨n, h1, h2, h3, h4, -⟩ := hne
  omega

/-- C4 (amended): with charge density and potential identically zero, any
tolerance strictly greater than zero and `max_iterations ≥ 26` (so that the
iteration-25 check is reached), `solve_potential` returns `true` and leaves
the potential identically zero. -/
theorem zero_source_converges (m : BoxMesh) (maxIter : ℕ) (tol : ℚ)
    (hrho : ∀ a b c, m.chargeDensity.data a b c = 0)
    (hphi : ∀ a b c, m.potential.data a b c = 0)
    (htol : 0 < tol) (hmax : 26 ≤ maxIter) :
    (m.solvePotential maxIter tol).2 = true ∧
      ∀ a b c, ((m.solvePotential maxIter tol).1).potential.data a b c = 0 := by
  unfold BoxMesh.solvePotential
  simp only
  exact solveLoop_zero_conv m.dimensions _ _ _ _ m.chargeDensity.data tol
    hrho htol maxIter 0 m.potential.data hphi (by omega) (by omega)

/-- Witness for C4 (amended) on the concrete all-zero mesh. -/
theorem zero_source_converges_witness :
    (∀ a b c, zeroMesh.chargeDensity.data a b c = 0) ∧
      (∀ a b c, zeroMesh.potential.data a b c = 0) ∧
      (0 : ℚ) < 1 ∧ 26 ≤ 26 ∧
      ((zeroMesh.solvePotential 26 1).2 = true ∧
        ∀ a b c, ((zeroMesh.solvePotential 26 1).1).potential.data a b c = 0) :=
  ⟨fun _ _ _ => rfl, fun _ _ _ => rfl, by norm_num, le_refl 26,
    zero_source_converges zeroMesh 26 1 (fun _ _ _ => rfl) (fun _ _ _ => rfl)
      (by norm_num) (le_refl 26)⟩

/-! ## Claim C3 -/

/-- C3 (amended): `solve_potential` returns `true` iff some check iteration
`25·n` (`n ≥ 1`, strictly below `max_iterations`, hence never iteration 0)
passes `residCheck` — the source's convergence test, which divides the summed
squared interior residuals by the TOTAL node count `dim.x·dim.y·dim.z`
(called `volume` in the source), not by the interior node count the claim
states; the potential tested is the one obtained after `25·n + 1` sweeps. -/
theorem solve_potential_convergence_criterion (m : BoxMesh) (maxIter : ℕ)
    (tol : ℚ) :
    (m.solvePotential maxIter tol).2 = true ↔
      ∃ n, 1 ≤ n ∧ 25 * n < maxIter ∧
        residCheck m.dimensions m.dx2 m.dy2 m.dz2 m.gsDenominator
          m.chargeDensity.data tol
          ((sweepFun m.dimensions m.dx2 m.dy2 m.dz2 m.gsDenominator
              m.chargeDensity.data)^[25 * n + 1] m.potential.data) := by
  unfold BoxMesh.solvePotential
  simp only
  rw [solveLoop_converged_iff]
  constructor
  · rintro ⟨n, -, h2, h3, h4, h5⟩
    refine ⟨n / 25, by omega, by omega, ?_⟩
    have he : 25 * (n / 25) = n := by omega
    rw [he]
    have he2 : n + 1 - 0 = n + 1 := by omega
    rw [he2] at h5
    exact h5
  · rintro ⟨n, h1, h2, h3⟩
    refine ⟨25 * n, by omega, by omega, by omega, by omega, ?_⟩
    have he2 : 25 * n + 1 - 0 = 25 * n + 1 := by omega
    rw [he2]
    exact h3

/-- The boundary potential value used in the C3 counterexample mesh, chosen
so the residual after 26 sweeps is an exact power of two. -/
def c3beta : ℚ := 5 ^ 26

/-- The tolerance used in the C3 counterexample. -/
def c3tol : ℚ := 2 ^ 28

/-- The zero charge density grid of the C3 counterexample. -/
def c3rho : Grid ℚ := fun _ _ _ => 0

/-- The initial potential of the C3 counterexample: zero at the single
interior node `(1,1,1)` of a 3×3×3 mesh and `c3beta` on the boundary. -/
def c3phi0 : Grid ℚ :=
  fun a b c => if a = 1 ∧ b = 1 ∧ c = 1 then 0 else c3beta

/-- The C3 counterexample mesh: the unit-spacing 3×3×3 box with zero charge
density and boundary potential `c3beta`. -/
def c3Mesh : BoxMesh :=
  { BoxMesh.new ⟨0, 0, 0⟩ ⟨3, 3, 3⟩ ⟨3, 3, 3⟩ 1 with
    potential := ⟨c3phi0, ⟨3, 3, 3⟩⟩,
    chargeDensity := ⟨c3rho, ⟨3, 3, 3⟩⟩ }

/-- The closed-form state of the C3 counterexample after `n` sweeps. -/
def c3state (n : ℕ) : Grid ℚ :=
  fun a b c =>
    if a = 1 ∧ b = 1 ∧ c = 1 then c3beta * (1 - (-(2/5) : ℚ) ^ n) else c3beta

lemma interiorList3 : interiorList ⟨3, 3, 3⟩ = [(1, 1, 1)] := rfl

lemma c3Mesh_dx2 : c3Mesh.dx2 = 1 := by
  norm_num [c3Mesh, BoxMesh.dx2, BoxMesh.new]

lemma c3Mesh_dy2 : c3Mesh.dy2 = 1 := by
  norm_num [c3Mesh, BoxMesh.dy2, BoxMesh.new]

lemma c3Mesh_dz2 : c3Mesh.dz2 = 1 := by
  norm_num [c3Mesh, BoxMesh.dz2, BoxMesh.new]

lemma c3Mesh_gsDenominator : c3Mesh.gsDenominator = 6 := by
  rw [BoxMesh.gsDenominator, c3Mesh_dx2, c3Mesh_dy2, c3Mesh_dz2]
  norm_num

lemma c3_iterate :
    ∀ n, (sweepFun ⟨3, 3, 3⟩ 1 1 1 6 c3rho)^[n] c3phi0 = c3state n := by
  intro n
  induction n with
  | zero =>
    funext a b c
    simp only [Function.iterate_zero, id_eq, c3phi0, c3state]
    split_ifs with h
    · norm_num
    · rfl
  | succ n ih =>
    rw [Function.iterate_succ_apply', ih]
    funext a b c
    show sweepOnce ⟨3, 3, 3⟩ 1 1 1 6 c3rho (c3state n) a b c = c3state (n + 1) a b c
    unfold sweepOnce
    rw [interiorList3]
    simp only [List.foldl_cons, List.foldl_nil]
    simp only [gsUpdate, c3rho]
    by_cases h : a = 1 ∧ b = 1 ∧ c = 1
    · rw [if_pos h]
      simp only [c3state, h, and_self, if_true]
      norm_num
      ring
    · rw [if_neg h]
      simp only [c3state]
      rw [if_neg h, if_neg h]

lemma c3_resid : residSumSq ⟨3, 3, 3⟩ 1 1 1 6 c3rho (c3state 26) = 9 * 2 ^ 54 := by
  unfold residSumSq
  rw [interiorList3]
  simp only [List.map_cons, List.map_nil, List.sum_cons, List.sum_nil,
    c3state, c3rho, c3beta]
  norm_num

/-- C3 counterexample: on a concrete 3×3×3 mesh with zero charge density and
boundary potential `5^26`, `solve_potential(26, 2^28)` returns `true` at its
only convergence check (iteration 25, i.e. after 26 sweeps), yet the claim's
quantity — the root-mean-square over the INTERIOR node count `(3-2)³ = 1` —
is not below the tolerance there: the source divides by the total node count
27 instead. -/
theorem convergence_criterion_counterexample :
    (c3Mesh.solvePotential 26 c3tol).2 = true ∧
      ¬ specResidCheck c3Mesh.dimensions c3Mesh.dx2 c3Mesh.dy2 c3Mesh.dz2
          c3Mesh.gsDenominator c3Mesh.chargeDensity.data c3tol
          ((sweepFun c3Mesh.dimensions c3Mesh.dx2 c3Mesh.dy2 c3Mesh.dz2
              c3Mesh.gsDenominator c3Mesh.chargeDensity.data)^[26]
            c3Mesh.potential.data) := by
  have hdims : c3Mesh.dimensions = ⟨3, 3, 3⟩ := rfl
  have hrho : c3Mesh.chargeDensity.data = c3rho := rfl
  have hphi : c3Mesh.potential.data = c3phi0 := rfl
  constructor
  · unfold BoxMesh.solvePotential
    simp only
    rw [solveLoop_converged_iff]
    refine ⟨25, by omega, by omega, by omega, by omega, ?_⟩
    rw [hdims, c3Mesh_dx2, c3Mesh_dy2, c3Mesh_dz2, c3Mesh_gsDenominator,
      hrho, hphi]
    show residCheck ⟨3, 3, 3⟩ 1 1 1 6 c3rho c3tol
      ((sweepFun ⟨3, 3, 3⟩ 1 1 1 6 c3rho)^[26] c3phi0)
    rw [c3_iterate 26]
    refine ⟨by norm_num [c3tol], ?_⟩
    rw [c3_resid]
    norm_num [c3tol]
  · rw [hdims, c3Mesh_dx2, c3Mesh_dy2, c3Mesh_dz2, c3Mesh_gsDenominator,
      hrho, hphi]
    rw [c3_iterate 26]
    rintro ⟨-, hlt⟩
    rw [c3_resid] at hlt
    norm_num [c3tol] at hlt

/-! ## Claim C1 -/

/-- The mesh used by the C1 fixtures: `[0,4]³` with dimensions `(4,4,4)`
(unit cell spacing) and unit timestep; its electric field is zero. -/
def c1Mesh : BoxMesh := BoxMesh.new ⟨0, 0, 0⟩ ⟨4, 4, 4⟩ ⟨4, 4, 4⟩ 1

/-- C1 counterexample: a particle starting inside the domain at `(1,1,1)`
(pre-push logical coordinate `(1,1,1)`, in range) with velocity `(10,0,0)` is
pushed to `x = 11`, far beyond `max_bound.x = 4`; yet `Species::advance`
leaves it at `x = 11` with velocity `+10`: no reflection happens, because the
code decides reflection from the PRE-push logical coordinate, not the
post-push one, so the particle neither ends inside the domain nor has its
velocity sign flipped. -/
theorem reflection_postpush_counterexample :
    (advanceParticle c1Mesh 0 1 ⟨⟨1, 1, 1⟩, ⟨10, 0, 0⟩, 1⟩).position.x = 11 ∧
      (advanceParticle c1Mesh 0 1 ⟨⟨1, 1, 1⟩, ⟨10, 0, 0⟩, 1⟩).velocity.x = 10 ∧
      c1Mesh.maxBound.x = 4 ∧
      ¬ (advanceParticle c1Mesh 0 1 ⟨⟨1, 1, 1⟩, ⟨10, 0, 0⟩, 1⟩).position.x
          ≤ c1Mesh.maxBound.x := by
  have hbound : c1Mesh.maxBound.x = 4 := rfl
  have hpos :
      (advanceParticle c1Mesh 0 1 ⟨⟨1, 1, 1⟩, ⟨10, 0, 0⟩, 1⟩).position.x = 11 ∧
      (advanceParticle c1Mesh 0 1 ⟨⟨1, 1, 1⟩, ⟨10, 0, 0⟩, 1⟩).velocity.x = 10 := by
    unfold advanceParticle BoxMesh.positionToLogicalCoordinate c1Mesh BoxMesh.new
    norm_num
  refine ⟨hpos.1, hpos.2, hbound, ?_⟩
  rw [hpos.1, hbound]
  norm_num

/-- C1 (amended): `Species::advance` decides reflection per axis from the
PRE-push logical coordinate `lc`. On an axis where `lc` is below 0 the
post-push position is reflected about the origin plane and that velocity
component negated; where `lc` is at or beyond `dim - 1`, about the max-bound
plane likewise; otherwise position and velocity are the pushed ones. The
reflection preserves each component's magnitude and the squared speed
(kinetic energy); it does not guarantee the particle ends inside the
domain. -/
theorem advance_reflection_characterization (m : BoxMesh) (charge mass : ℚ)
    (p : Particle) :
    ((m.positionToLogicalCoordinate p.position).x < 0 →
      (advanceParticle m charge mass p).position.x
          = 2 * m.origin.x - (pushedState m charge mass p).1.x ∧
        (advanceParticle m charge mass p).velocity.x
          = -(pushedState m charge mass p).2.x) ∧
    (¬ (m.positionToLogicalCoordinate p.position).x < 0 →
      ((m.dimensions.x - 1 : ℕ) : ℚ) ≤ (m.positionToLogicalCoordinate p.position).x →
      (advanceParticle m charge mass p).position.x
          = 2 * m.maxBound.x - (pushedState m charge mass p).1.x ∧
        (advanceParticle m charge mass p).velocity.x
          = -(pushedState m charge mass p).2.x) ∧
    (¬ (m.positionToLogicalCoordinate p.position).x < 0 →
      ¬ ((m.dimensions.x - 1 : ℕ) : ℚ) ≤ (m.positionToLogicalCoordinate p.position).x →
      (advanceParticle m charge mass p).position.x
          = (pushedState m charge mass p).1.x ∧
        (advanceParticle m charge mass p).velocity.x
          = (pushedState m charge mass p).2.x) ∧
    ((m.positionToLogicalCoordinate p.position).y < 0 →
      (advanceParticle m charge mass p).position.y
          = 2 * m.origin.y - (pushedState m charge mass p).1.y ∧
        (advanceParticle m charge mass p).velocity.y
          = -(pushedState m charge mass p).2.y) ∧
    (¬ (m.positionToLogicalCoordinate p.position).y < 0 →
      ((m.dimensions.y - 1 : ℕ) : ℚ) ≤ (m.positionToLogicalCoordinate p.position).y →
      (advanceParticle m charge mass p).position.y
          = 2 * m.maxBound.y - (pushedState m charge mass p).1.y ∧
        (advanceParticle m charge mass p).velocity.y
          = -(pushedState m charge mass p).2.y) ∧
    (¬ (m.positionToLogicalCoordinate p.position).y < 0 →
      ¬ ((m.dimensions.y - 1 : ℕ) : ℚ) ≤ (m.positionToLogicalCoordinate p.position).y →
      (advanceParticle m charge mass p).position.y
          = (pushedState m charge mass p).1.y ∧
        (advanceParticle m charge mass p).velocity.y
          = (pushedState m charge mass p).2.y) ∧
    ((m.positionToLogicalCoordinate p.position).z < 0 →
      (advanceParticle m charge mass p).position.z
          = 2 * m.origin.z - (pushedState m charge mass p).1.z ∧
        (advanceParticle m charge mass p).velocity.z
          = -(pushedState m charge mass p).2.z) ∧
    (¬ (m.positionToLogicalCoordinate p.position).z < 0 →
      ((m.dimensions.z - 1 : ℕ) : ℚ) ≤ (m.positionToLogicalCoordinate p.position).z →
      (advanceParticle m charge mass p).position.z
          = 2 * m.maxBound.z - (pushedState m charge mass p).1.z ∧
        (advanceParticle m charge mass p).velocity.z
          = -(pushedState m charge mass p).2.z) ∧
    (¬ (m.positionToLogicalCoordinate p.position).z < 0 →
      ¬ ((m.dimensions.z - 1 : ℕ) : ℚ) ≤ (m.positionToLogicalCoordinate p.position).z →
      (advanceParticle m charge mass p).position.z
          = (pushedState m charge mass p).1.z ∧
        (advanceParticle m charge mass p).velocity.z
          = (pushedState m charge mass p).2.z) ∧
    speedSq (advanceParticle m charge mass p).velocity
      = speedSq (pushedState m charge mass p).2 := by
  unfold advanceParticle pushedState
  simp only
  refine ⟨?_, ?_, ?_, ?_, ?_, ?_, ?_, ?_, ?_, ?_⟩
  · intro h1
    rw [if_pos h1]
    exact ⟨rfl, by ring⟩
  · intro h1 h2
    rw [if_neg h1, if_pos h2]
    exact ⟨rfl, by ring⟩
  · intro h1 h2
    rw [if_neg h1, if_neg h2]
    exact ⟨rfl, rfl⟩
  · intro h1
    rw [if_pos h1]
    exact ⟨rfl, by ring⟩
  · intro h1 h2
    rw [if_neg h1, if_pos h2]
    exact ⟨rfl, by ring⟩
  · intro h1 h2
    rw [if_neg h1, if_neg h2]
    exact ⟨rfl, rfl⟩
  · intro h1
    rw [if_pos h1]
    exact ⟨rfl, by ring⟩
  · intro h1 h2
    rw [if_neg h1, if_pos h2]
    exact ⟨rfl, by ring⟩
  · intro h1 h2
    rw [if_neg h1, if_neg h2]
    exact ⟨rfl, rfl⟩
  · unfold speedSq
    split_ifs <;> (dsimp only) <;> ring

/-- Witness for C1 (amended): a particle whose pre-push logical x coordinate
is negative gets reflected about the origin plane with its x velocity
negated and its squared speed preserved. -/
theorem advance_reflection_characterization_witness :
    (c1Mesh.positionToLogicalCoordinate
        (⟨⟨-1, 1, 1⟩, ⟨2, 0, 0⟩, 1⟩ : Particle).position).x < 0 ∧
      (advanceParticle c1Mesh 0 1 ⟨⟨-1, 1, 1⟩, ⟨2, 0, 0⟩, 1⟩).position.x = -1 ∧
      (advanceParticle c1Mesh 0 1 ⟨⟨-1, 1, 1⟩, ⟨2, 0, 0⟩, 1⟩).velocity.x = -2 ∧
      speedSq (advanceParticle c1Mesh 0 1 ⟨⟨-1, 1, 1⟩, ⟨2, 0, 0⟩, 1⟩).velocity
        = speedSq (pushedState c1Mesh 0 1 ⟨⟨-1, 1, 1⟩, ⟨2, 0, 0⟩, 1⟩).2 := by
  have hlt : (c1Mesh.positionToLogicalCoordinate
      (⟨⟨-1, 1, 1⟩, ⟨2, 0, 0⟩, 1⟩ : Particle).position).x < 0 := by
    unfold c1Mesh BoxMesh.positionToLogicalCoordinate BoxMesh.new
    norm_num
  have h := advance_reflection_characterization c1Mesh 0 1
    ⟨⟨-1, 1, 1⟩, ⟨2, 0, 0⟩, 1⟩
  have hx := h.1 hlt
  have hpush :
      (pushedState c1Mesh 0 1 ⟨⟨-1, 1, 1⟩, ⟨2, 0, 0⟩, 1⟩).1.x = 1 ∧
      (pushedState c1Mesh 0 1 ⟨⟨-1, 1, 1⟩, ⟨2, 0, 0⟩, 1⟩).2.x = 2 := by
    unfold pushedState c1Mesh BoxMesh.new
    norm_num
  refine ⟨hlt, ?_, ?_, ?_⟩
  · rw [hx.1, hpush.1]
    have horigin : c1Mesh.origin.x = 0 := rfl
    rw [horigin]
    norm_num
  · rw [hx.2, hpush.2]
  · exact h.2.2.2.2.2.2.2.2.2

end PlasmaSim
